import Mathlib

/-!
The xrate service: exchange-rate conversion with a per-day cache.

A shallow embedding of `src/xrate/xrate.go` and `src/xrate/leveldb.go`.

* Go `string` and `[]byte` values are byte lists (`Bytes`).
* A Go `map[string]Dec` is an association list in iteration order; a Go map
  has unique keys, which theorems about maps assume as `Nodup` of the keys.
* A Go `(*T, error)` result is a pair of options (`none` is `nil`).
* Effects are explicit: `Service.Rates` takes the environment (clock, network,
  JSON decoder, database implementation) and the database state, and returns
  its outcome together with the trace of collaborator calls and the final
  database state. A nil-pointer dereference is the outcome `panic`.
* The packages the source imports but that are not part of the repository
  (`decimal`, `encoding/json`, `net/http`, `leveldb`) are either parameters of
  the environment or modelled from the specification, as marked.
-/

namespace Xrate

/-! ## Bytes -/

/-- Go `[]byte` and `string` values. -/
abbrev Bytes := List UInt8

/-- The bytes of a string literal of the source (UTF-8). -/
def lit (s : String) : Bytes := s.toUTF8.data.toList

/-- The digit loop of integer formatting: peel the last decimal digit of `n` onto `acc` until
a single digit is left. `fuel` bounds the number of iterations. -/
def natDigitsAux : Nat → Nat → Bytes → Bytes
  | 0, _, acc => acc
  | fuel + 1, n, acc =>
    if n < 10 then UInt8.ofNat (48 + n) :: acc
    else natDigitsAux fuel (n / 10) (UInt8.ofNat (48 + n % 10) :: acc)

/-- Decimal digits of a natural number, most significant first, as bytes. -/
def natDigits (n : Nat) : Bytes := natDigitsAux (n + 1) n []

/-- Whether the byte is one of `'0'..'9'`. -/
def isDigit (b : UInt8) : Bool := 48 ≤ b.toNat && b.toNat ≤ 57

/-- Value of a run of digit bytes, most significant first. -/
def digitsVal (ds : Bytes) : Nat := ds.foldl (fun acc b => 10 * acc + (b.toNat - 48)) 0

/-! ## Decimal values -/

/-- Modelled from the spec: the Decimal Value of section 3 (`decimal.Decimal` of the imported
package, which is not under src/): an exact decimal number given by its signed digits `value`
and its scale, here the power of ten `exp`; the number denoted is `value * 10 ^ exp`. -/
structure Decimal where
  value : Int
  exp : Int
deriving DecidableEq, Repr

/-- `Dec` wraps `decimal.Decimal` only to change its JSON rendering. -/
abbrev Dec := Decimal

/-- The rational number a decimal denotes. -/
def Decimal.toRat (d : Decimal) : ℚ := (d.value : ℚ) * (10 : ℚ) ^ d.exp

/-- Modelled from the spec: exact multiplication of Decimal Values (`Decimal.Mul`, not under
src/): digits multiply, scales add. -/
def Decimal.Mul (d d2 : Decimal) : Decimal :=
  { value := d.value * d2.value, exp := d.exp + d2.exp }

/-- Modelled from the spec: change of scale of a Decimal Value (`Decimal.rescale`, not under
src/): exact when the scale grows finer, truncating toward zero when it grows coarser. -/
def Decimal.rescale (d : Decimal) (exp : Int) : Decimal :=
  let diff : Nat := (exp - d.exp).natAbs
  let expScale : Int := 10 ^ diff
  if exp > d.exp then { value := Int.tdiv d.value expScale, exp := exp }
  else if exp < d.exp then { value := d.value * expScale, exp := exp }
  else { value := d.value, exp := exp }

/-- Modelled from the spec: rounding of a Decimal Value to `places` decimal places, half-up
(`Decimal.Round`, not under src/): truncate to one more place, add half a unit with the sign
of the number, then drop the last digit toward zero. -/
def Decimal.Round (d : Decimal) (places : Int) : Decimal :=
  let ret := d.rescale (-places - 1)
  let v := if ret.value < 0 then ret.value - 5 else ret.value + 5
  let q := v / 10
  let m := v % 10
  { value := if q < 0 ∧ m ≠ 0 then q + 1 else q, exp := ret.exp + 1 }

/-- Base-10 integer text: an optional sign followed by one or more digits. -/
def parseInt (s : Bytes) : Option Int :=
  let digits (ds : Bytes) : Option Nat :=
    if ds ≠ [] ∧ ds.all isDigit then some (digitsVal ds) else none
  match s with
  | [] => none
  | c :: rest =>
    if c = 45 then (digits rest).map (fun n => -(n : Int))
    else if c = 43 then (digits rest).map (fun n => (n : Int))
    else (digits s).map (fun n => (n : Int))

/-- Split a byte string at every `'.'`. -/
def splitDot : Bytes → List Bytes
  | [] => [[]]
  | c :: rest =>
    match splitDot rest with
    | [] => [[c]]
    | p :: ps => if c = 46 then [] :: p :: ps else (c :: p) :: ps

/-- Modelled from the spec: parsing of amount text as an exact decimal number
(`decimal.NewFromString`, not under src/), in plain decimal notation: an optional sign, digits,
and at most one decimal point; the digits after the point fix the scale. `none` is the error
result. -/
def NewFromString (value : Bytes) : Option Decimal :=
  match splitDot value with
  | [whole] => (parseInt whole).map (fun v => { value := v, exp := 0 })
  | [whole, frac] =>
    (parseInt (whole ++ frac)).map (fun v => { value := v, exp := -(frac.length : Int) })
  | _ => none

/-- Drop trailing `'0'` bytes. -/
def trimZeros (s : Bytes) : Bytes := (s.reverse.dropWhile (fun b => b = 48)).reverse

/-- Modelled from the spec: the text form of a Decimal Value (`Decimal.String`, not under src/):
plain positional notation without exponent and without trailing fractional zeros. -/
def Decimal.String (d : Decimal) : Bytes :=
  if 0 ≤ d.exp then
    (if d.value < 0 then [45] else []) ++ natDigits (d.value.natAbs * 10 ^ d.exp.toNat)
  else
    let str := natDigits d.value.natAbs
    let k := (-d.exp).toNat
    let intPart := if k < str.length then str.take (str.length - k) else [48]
    let fracPart :=
      if k < str.length then str.drop (str.length - k)
      else List.replicate (k - str.length) 48 ++ str
    let frac := trimZeros fracPart
    let number := if frac = [] then intPart else intPart ++ [46] ++ frac
    if d.value < 0 then 45 :: number else number

/-- Rounding a rational to `places` decimal places, half-up: to the nearest multiple of
`10 ^ (-places)`, a tie going to the larger magnitude. This is the specification's rounding,
stated independently of the digit manipulation of `Decimal.Round`. -/
def roundHalfUp (x : ℚ) (places : Nat) : ℚ :=
  (SignType.sign x : ℚ) * (⌊|x| * (10 : ℚ) ^ places + 1 / 2⌋ : ℚ) / (10 : ℚ) ^ places

/-- The magnitude `a * 10 ^ k` truncated to a natural number (used to describe `Decimal.Round`). -/
def scaleNat (a : Nat) (k : Int) : Nat :=
  if 0 ≤ k then a * 10 ^ k.toNat else a / 10 ^ (-k).toNat

/-! ## Go maps -/

/-- Lookup `m[k]` in a map held as an association list. -/
def GoMap.get {V : Type} : List (Bytes × V) → Bytes → Option V
  | [], _ => none
  | (k1, v1) :: rest, k => if k1 = k then some v1 else GoMap.get rest k

/-- Assignment `m[k] = v`: replaces the value of an existing key, adds a new key otherwise. -/
def GoMap.set {V : Type} : List (Bytes × V) → Bytes → V → List (Bytes × V)
  | [], k, v => [(k, v)]
  | (k1, v1) :: rest, k, v =>
    if k1 = k then (k, v) :: rest else (k1, v1) :: GoMap.set rest k v

/-! ## Rate tables and conversion results (xrate.go) -/

/-- Rates is an exchange rate table returned to user. -/
structure Rates where
  Amount : Dec
  Currency : Bytes
  Converted : List (Bytes × Dec)
deriving DecidableEq, Repr

/-- FixerRates represents the response from fixer.io with exchange rates. -/
structure FixerRates where
  Base : Bytes
  Date : Bytes
  Rates : List (Bytes × Dec)
deriving DecidableEq, Repr

/-- Number of decimal places converted values are rounded to. -/
def defaultRoundPlaces : Int := 2

/-- Convert FixerRates to Rates by multiplying rates by amount and rounding final values to
2 decimal places. The receiver is non-nil here; `Service.Rates` handles the nil receiver. -/
def FixerRates.convToRates (fr : FixerRates) (amount : Decimal) (currency : Bytes) :
    Xrate.Rates :=
  { Amount := amount
    Currency := currency
    Converted := fr.Rates.foldl
      (fun conv kv => GoMap.set conv kv.1 ((kv.2.Mul amount).Round defaultRoundPlaces)) [] }

/-! ## Errors -/

/-- Error values. The first two are the validation errors of xrate.go, `ErrNotFound` is the
storage engine's not-found error, `external` is any other error raised by a collaborator, and
the remaining constructors are the `fmt.Errorf` wrappers of xrate.go and leveldb.go. -/
inductive Error where
  | ErrParseAmount
  | ErrEmptyCurr
  | ErrNotFound
  | external (msg : String)
  | cantRequest (cause : Error)
  | cantReadBody (cause : Error)
  | cantParse (cause : Error)
  | cantFetchKey (key : Bytes) (cause : Error)
  | cantUnmarshal (key : Bytes) (cause : Error)
deriving DecidableEq, Repr

/-! ## The cache key -/

/-- A calendar date, as `time.Now()` reports it. -/
structure Date where
  year : Nat
  month : Nat
  day : Nat
deriving DecidableEq, Repr

/-- Dates the clock can report with a four-digit year. -/
def Date.valid (d : Date) : Prop :=
  d.year ≤ 9999 ∧ 1 ≤ d.month ∧ d.month ≤ 12 ∧ 1 ≤ d.day ∧ d.day ≤ 31

instance (d : Date) : Decidable d.valid := by unfold Date.valid; infer_instance

/-- Decimal text of `x`, zero-padded on the left to at least `width` digits. -/
def appendInt (x width : Nat) : Bytes :=
  List.replicate (width - (natDigits x).length) 48 ++ natDigits x

/-- The layout `2006-01-02` of `time.Format`: year, month and day separated by `'-'`. -/
def Date.format (d : Date) : Bytes :=
  appendInt d.year 4 ++ [45] ++ appendInt d.month 2 ++ [45] ++ appendInt d.day 2

/-- Constructs cache key under which cached rates are stored: the date followed by the
currency. The current date is the parameter `now`. -/
def cacheKey (now : Date) (currency : Bytes) : Bytes :=
  now.format ++ currency

/-! ## Collaborators -/

/-- An HTTP response as the service uses it: the status code and the result of reading the
whole body. -/
structure Response where
  StatusCode : Nat
  Body : Except Error Bytes

/-- Database provides access to exchange rates data. `σ` is the state behind the
implementation; both methods may change it. -/
structure Database (σ : Type) where
  Get : σ → Bytes → (Option FixerRates × Option Error) × σ
  Set : σ → Bytes → Bytes → Option Error × σ

/-- Service defines exchange rates service. -/
structure Service (σ : Type) where
  db : Database σ

/-- What a call reads from outside the program: the clock, the network and the JSON decoder
for rate tables (`json.Unmarshal` into a `FixerRates`). -/
structure Env where
  now : Date
  httpGet : Bytes → Except Error Response
  unmarshal : Bytes → Except Error FixerRates

/-- Calls made to the collaborators, in order. -/
inductive Event where
  | dbGet (key : Bytes)
  | httpGet (url : Bytes)
  | dbSet (key value : Bytes)
deriving DecidableEq, Repr

/-- Result of `fetchRates`: the returned pair, the calls made, the database state after. -/
structure FetchRun (σ : Type) where
  fr : Option FixerRates
  err : Option Error
  trace : List Event
  state : σ

/-- How a call of `Rates` ends: it returns its pair of results, or it panics. -/
inductive Outcome where
  | ret (rates : Option Rates) (err : Option Error)
  | panic
deriving DecidableEq, Repr

/-- Result of `Service.Rates`: the outcome, the calls made, the database state after. -/
structure Run (σ : Type) where
  out : Outcome
  trace : List Event
  state : σ

/-- Address of the rate provider for a base currency. -/
def fixerURL (currency : Bytes) : Bytes := lit "http://api.fixer.io/latest?base=" ++ currency

/-- Fetch rates from fixer.io and store the results in the database. -/
def Service.fetchRates {σ : Type} (s : Service σ) (env : Env) (st : σ) (currency key : Bytes) :
    FetchRun σ :=
  let url := fixerURL currency
  match env.httpGet url with
  | .error err => { fr := none, err := some (.cantRequest err), trace := [.httpGet url], state := st }
  | .ok resp =>
    match resp.Body with
    | .error err =>
      { fr := none, err := some (.cantReadBody err), trace := [.httpGet url], state := st }
    | .ok body =>
      match env.unmarshal body with
      | .error err =>
        { fr := none, err := some (.cantParse err), trace := [.httpGet url], state := st }
      | .ok fr =>
        { fr := some fr, err := none, trace := [.httpGet url, .dbSet key body]
          state := (s.db.Set st key body).2 }

/-- Rates return exchange rates for given amount and currency. It tries to fetch from database
first. If it fails, it uses fixer.io. The error of `fetchRates` is assigned and not read; the
conversion then runs on the table pointer, and a nil pointer there is a panic. -/
def Service.Rates {σ : Type} (s : Service σ) (env : Env) (st : σ) (amount currency : Bytes) :
    Run σ :=
  if currency = [] then { out := .ret none (some .ErrEmptyCurr), trace := [], state := st }
  else
    match NewFromString amount with
    | none => { out := .ret none (some .ErrParseAmount), trace := [], state := st }
    | some am =>
      let key := cacheKey env.now currency
      let got := s.db.Get st key
      let res : FetchRun σ :=
        if got.1.2.isSome then s.fetchRates env got.2 currency key
        else { fr := got.1.1, err := got.1.2, trace := [], state := got.2 }
      match res.fr with
      | none => { out := .panic, trace := .dbGet key :: res.trace, state := res.state }
      | some fr =>
        { out := .ret (some (fr.convToRates am currency)) none
          trace := .dbGet key :: res.trace, state := res.state }

/-! ## The LevelDB-backed database (leveldb.go) -/

/-- The storage engine as `levelDB` uses it: the stored entries, and the error its reads or
writes currently fail with, if any (closed handle, I/O failure). -/
structure DB where
  entries : List (Bytes × Bytes)
  readFault : Option Error
  writeFault : Option Error
deriving DecidableEq, Repr

/-- Engine read: the stored bytes, `ErrNotFound` for an absent key, or the read fault. -/
def DB.Get (db : DB) (key : Bytes) : Except Error Bytes :=
  match db.readFault with
  | some err => .error err
  | none =>
    match GoMap.get db.entries key with
    | some buf => .ok buf
    | none => .error .ErrNotFound

/-- Engine write: stores the bytes under the key, or fails with the write fault and stores
nothing. -/
def DB.Put (db : DB) (key value : Bytes) : Option Error × DB :=
  match db.writeFault with
  | some err => (some err, db)
  | none => (none, { db with entries := GoMap.set db.entries key value })

/-- Read the entry of `levelDB.Get` and decode it as a rate table. -/
def levelDB.Get (unmarshal : Bytes → Except Error FixerRates) (d : DB) (key : Bytes) :
    Option FixerRates × Option Error :=
  match d.Get key with
  | .error err =>
    if err = .ErrNotFound then (none, some err) else (none, some (.cantFetchKey key err))
  | .ok buf =>
    match unmarshal buf with
    | .error err => (none, some (.cantUnmarshal key err))
    | .ok fr => (some fr, none)

/-- Store raw bytes under the key, as `levelDB.Set` does. -/
def levelDB.Set (d : DB) (key value : Bytes) : Option Error × DB :=
  d.Put key value

/-- NewDatabase returns the LevelDB-backed Database. -/
def NewDatabase (unmarshal : Bytes → Except Error FixerRates) : Database DB :=
  { Get := fun d key => (levelDB.Get unmarshal d key, d)
    Set := fun d key value => levelDB.Set d key value }

/-- NewService creates new xrate Service using given database. -/
def NewService {σ : Type} (db : Database σ) : Service σ := { db := db }

/-! ## Fixtures (xrate_test.go and concrete environments) -/

/-- The test double of xrate_test.go: a table with base SEK and no rates under the key of
today for SEK, not found otherwise; `Set` does nothing and succeeds. -/
def fakeLevelDB (now : Date) : Database Unit :=
  { Get := fun st key =>
      if key = cacheKey now (lit "SEK") then
        ((some { Base := lit "SEK", Date := [], Rates := [] }, none), st)
      else ((none, some .ErrNotFound), st)
    Set := fun st _ _ => (none, st) }

/-- The date used in the concrete scenarios. -/
def today : Date := { year := 2024, month := 5, day := 1 }

/-- The zero rate table: what the JSON decoder yields for the empty object. -/
def emptyTable : FixerRates := { Base := [], Date := [], Rates := [] }

/-- A decoder for the concrete scenarios. It agrees with `json.Unmarshal` on the bodies the
scenarios use: the empty JSON object decodes to the zero table (no field is required), and the
other bodies used are not JSON text and are rejected. -/
def unmarshalFixture (body : Bytes) : Except Error FixerRates :=
  if body = lit "\x7b\x7d" then .ok emptyTable else .error (.external "invalid character")

/-- The provider cannot be reached: the request itself fails. -/
def envDown : Env :=
  { now := today
    httpGet := fun _ => .error (.external "connection refused")
    unmarshal := unmarshalFixture }

/-- The provider answers with the given status and an empty JSON object as body. -/
def envStatus (status : Nat) : Env :=
  { now := today
    httpGet := fun _ => .ok { StatusCode := status, Body := .ok (lit "\x7b\x7d") }
    unmarshal := unmarshalFixture }

/-- A database whose `Set` always fails and stores nothing; `Get` never finds anything. -/
def failingSetDB : Database Unit :=
  { Get := fun st _ => ((none, some .ErrNotFound), st)
    Set := fun st _ _ => (some (.external "read-only file system"), st) }

/-- A LevelDB state holding, under the key of `today` for USD, bytes that are not a rate
table. -/
def corruptDB : DB :=
  { entries := [(cacheKey today (lit "USD"), lit "garbage")], readFault := none, writeFault := none }

/-- A LevelDB state holding, under the key of `today` for USD, the empty JSON object. -/
def cachedDB : DB :=
  { entries := [(cacheKey today (lit "USD"), lit "\x7b\x7d")], readFault := none
    writeFault := none }

/-! ## Decimal rounding against the rational specification -/

theorem rescale_exp (d : Decimal) (t : Int) : (d.rescale t).exp = t := by
  unfold Decimal.rescale
  simp only
  split_ifs <;> rfl

theorem sign_mul_natAbs_tdiv (v : Int) (n : Nat) :
    Int.tdiv v (n : Int) = Int.sign v * ((v.natAbs / n : Nat) : Int) := by
  rcases Int.natAbs_eq v with hv | hv
  · rw [hv]
    simp only [Int.natAbs_ofNat]
    rw [← Int.ofNat_tdiv]
    rcases Nat.eq_zero_or_pos v.natAbs with h0 | h0
    · simp [h0]
    · have : Int.sign (v.natAbs : Int) = 1 := Int.sign_eq_one_of_pos (by exact_mod_cast h0)
      rw [this]; simp
  · rw [hv]
    simp only [Int.natAbs_neg, Int.natAbs_ofNat, Int.neg_tdiv]
    rw [← Int.ofNat_tdiv]
    rcases Nat.eq_zero_or_pos v.natAbs with h0 | h0
    · simp [h0]
    · have : Int.sign (-(v.natAbs : Int)) = -1 := Int.sign_eq_neg_one_of_neg (by omega)
      rw [this]; simp

theorem rescale_value (d : Decimal) (t : Int) :
    (d.rescale t).value = Int.sign d.value * (scaleNat d.value.natAbs (d.exp - t) : Int) := by
  unfold Decimal.rescale scaleNat
  rcases lt_trichotomy t d.exp with h | h | h
  · have h1 : ¬ t > d.exp := by omega
    have h2 : (0 : Int) ≤ d.exp - t := by omega
    have h3 : (d.exp - t).toNat = (t - d.exp).natAbs := by omega
    simp only [h1, h, h2, if_true, if_false, h3]
    push_cast
    rw [← mul_assoc, Int.sign_mul_abs]
  · subst h
    simp [Int.sign_mul_abs]
  · have h1 : t > d.exp := h
    have h2 : ¬ (0 : Int) ≤ d.exp - t := by omega
    have h3 : (-(d.exp - t)).toNat = (t - d.exp).natAbs := by omega
    simp only [h1, h2, if_true, if_false, h3]
    have := sign_mul_natAbs_tdiv d.value (10 ^ (t - d.exp).natAbs)
    rw [Nat.cast_pow, Nat.cast_ofNat] at this
    rw [this]

theorem Round_exp (d : Decimal) (places : Int) : (d.Round places).exp = -places := by
  unfold Decimal.Round
  simp only [rescale_exp]
  omega

theorem Round_value (d : Decimal) (places : Int) :
    (d.Round places).value
      = Int.sign d.value * (((scaleNat d.value.natAbs (d.exp + places + 1) + 5) / 10 : Nat) : Int) := by
  unfold Decimal.Round
  simp only [rescale_value]
  have hk : d.exp - (-places - 1) = d.exp + places + 1 := by ring
  rw [hk]
  generalize scaleNat d.value.natAbs (d.exp + places + 1) = a
  rcases lt_trichotomy d.value 0 with h | h | h
  · rw [Int.sign_eq_neg_one_of_neg h]
    push_cast
    split_ifs <;> omega
  · rw [h]; simp
  · rw [Int.sign_eq_one_of_pos h]
    push_cast
    split_ifs <;> omega

theorem floor_scale (a : Nat) (e : Int) (p : Nat) :
    ⌊(a : ℚ) * (10 : ℚ) ^ e * (10 : ℚ) ^ p + 1 / 2⌋ = (((scaleNat a (e + p + 1) + 5) / 10 : Nat) : Int) := by
  unfold scaleNat
  by_cases hk : 0 ≤ e + p + 1
  · simp only [hk, if_true]
    obtain ⟨k, hk'⟩ := Int.eq_ofNat_of_zero_le hk
    have he : e = (k : Int) - p - 1 := by omega
    have h1 : (a : ℚ) * (10 : ℚ) ^ e * (10 : ℚ) ^ p + 1 / 2
        = (((a * 10 ^ k + 5 : Nat) : Int) : ℚ) / ((10 : Nat) : ℚ) := by
      rw [he]
      push_cast
      rw [zpow_sub₀ (by norm_num), zpow_sub₀ (by norm_num)]
      simp only [zpow_natCast, zpow_one]
      field_simp
      ring
    rw [h1, Rat.floor_intCast_div_natCast, hk']
    simp only [Int.toNat_ofNat]
    norm_cast
  · simp only [hk, if_false]
    obtain ⟨j, hj⟩ := Int.eq_ofNat_of_zero_le (show 0 ≤ -(e + p + 1) by omega)
    have he : e = -(j : Int) - p - 1 := by omega
    have h1 : (a : ℚ) * (10 : ℚ) ^ e * (10 : ℚ) ^ p + 1 / 2
        = (((a + 5 * 10 ^ j : Nat) : Int) : ℚ) / ((10 ^ j * 10 : Nat) : ℚ) := by
      rw [he]
      push_cast
      rw [zpow_sub₀ (by norm_num), zpow_sub₀ (by norm_num), zpow_neg]
      simp only [zpow_natCast, zpow_one]
      field_simp
      ring
    rw [h1, Rat.floor_intCast_div_natCast, hj]
    simp only [Int.toNat_ofNat]
    norm_cast
    rw [← Nat.div_div_eq_div_mul, Nat.add_mul_div_right _ _ (by positivity)]

theorem Round_toRat (d : Decimal) (places : Nat) :
    (d.Round places).toRat = roundHalfUp d.toRat places := by
  unfold roundHalfUp
  have hpow : (0 : ℚ) < (10 : ℚ) ^ d.exp := by positivity
  have habs : |d.toRat| = (d.value.natAbs : ℚ) * (10 : ℚ) ^ d.exp := by
    unfold Decimal.toRat
    rw [abs_mul, abs_of_pos hpow, Nat.cast_natAbs, Int.cast_abs]
  have hsign : (SignType.sign d.toRat : ℚ) = ((Int.sign d.value : Int) : ℚ) := by
    unfold Decimal.toRat
    rw [sign_mul, sign_pos hpow, mul_one]
    rcases lt_trichotomy d.value 0 with h | h | h
    · rw [Int.sign_eq_neg_one_of_neg h, sign_neg (by exact_mod_cast h)]; simp
    · rw [h]; simp
    · rw [Int.sign_eq_one_of_pos h, sign_pos (by exact_mod_cast h)]; simp
  rw [habs, hsign, floor_scale]
  unfold Decimal.toRat
  rw [Round_exp, Round_value]
  push_cast
  rw [zpow_neg, zpow_natCast]
  field_simp

/-! ## Input validation -/

/-- C2: with an empty currency, whatever the amount text, `Service.Rates` returns a nil result
and `ErrEmptyCurr`, without calling the database or the provider: the currency check comes
before the amount is parsed. -/
theorem Rates_empty_currency {σ : Type} (s : Service σ) (env : Env) (st : σ) (amount : Bytes) :
    s.Rates env st amount [] = { out := .ret none (some .ErrEmptyCurr), trace := [], state := st } := by
  simp [Service.Rates]

/-- C3: with a non-empty currency and an amount text that does not parse as a decimal,
`Service.Rates` returns a nil result and `ErrParseAmount`, without calling the database or the
provider; the empty amount text is such a text. -/
theorem Rates_invalid_amount {σ : Type} (s : Service σ) (env : Env) (st : σ)
    (amount currency : Bytes) (hcur : currency ≠ []) (hamt : NewFromString amount = none) :
    s.Rates env st amount currency
        = { out := .ret none (some .ErrParseAmount), trace := [], state := st }
      ∧ NewFromString [] = none
      ∧ s.Rates env st [] currency
        = { out := .ret none (some .ErrParseAmount), trace := [], state := st } := by
  have hempty : NewFromString [] = none := by decide
  refine ⟨?_, hempty, ?_⟩
  · simp [Service.Rates, hcur, hamt]
  · simp [Service.Rates, hcur, hempty]

/-- Witness of C3: the amount text `abc` with currency SEK. -/
theorem Rates_invalid_amount_witness :
    lit "SEK" ≠ [] ∧ NewFromString (lit "abc") = none
      ∧ (NewService (fakeLevelDB today)).Rates envDown () (lit "abc") (lit "SEK")
        = { out := .ret none (some .ErrParseAmount), trace := [], state := () } :=
  ⟨by decide, by decide,
    (Rates_invalid_amount (NewService (fakeLevelDB today)) envDown () (lit "abc") (lit "SEK")
      (by decide) (by decide)).1⟩

/-! ## Resolution of the rate table -/

theorem Rates_run_of_hit {σ : Type} (s : Service σ) (env : Env) (st st1 : σ)
    (amount currency : Bytes) (am : Decimal) (fr : FixerRates)
    (hcur : currency ≠ []) (hamt : NewFromString amount = some am)
    (hget : s.db.Get st (cacheKey env.now currency) = ((some fr, none), st1)) :
    s.Rates env st amount currency
      = { out := .ret (some (fr.convToRates am currency)) none
          trace := [.dbGet (cacheKey env.now currency)], state := st1 } := by
  simp [Service.Rates, hcur, hamt, hget]

theorem Rates_run_of_fetch {σ : Type} (s : Service σ) (env : Env) (st st1 : σ)
    (amount currency body : Bytes) (am : Decimal) (cached : Option FixerRates) (err : Error)
    (resp : Response) (fr : FixerRates)
    (hcur : currency ≠ []) (hamt : NewFromString amount = some am)
    (hget : s.db.Get st (cacheKey env.now currency) = ((cached, some err), st1))
    (hreq : env.httpGet (fixerURL currency) = .ok resp) (hbody : resp.Body = .ok body)
    (hdec : env.unmarshal body = .ok fr) :
    s.Rates env st amount currency
      = { out := .ret (some (fr.convToRates am currency)) none
          trace := [.dbGet (cacheKey env.now currency), .httpGet (fixerURL currency),
                    .dbSet (cacheKey env.now currency) body]
          state := (s.db.Set st1 (cacheKey env.now currency) body).2 } := by
  simp [Service.Rates, Service.fetchRates, hcur, hamt, hget, hreq, hbody, hdec]

theorem Rates_run_of_failures {σ : Type} (s : Service σ) (env : Env) (st st1 : σ)
    (amount currency : Bytes) (am : Decimal) (cached : Option FixerRates) (err : Error)
    (hcur : currency ≠ []) (hamt : NewFromString amount = some am)
    (hget : s.db.Get st (cacheKey env.now currency) = ((cached, some err), st1))
    (hfail : (∃ e, env.httpGet (fixerURL currency) = .error e)
      ∨ (∃ resp e, env.httpGet (fixerURL currency) = .ok resp ∧ resp.Body = .error e)
      ∨ (∃ resp body e, env.httpGet (fixerURL currency) = .ok resp ∧ resp.Body = .ok body
          ∧ env.unmarshal body = .error e)) :
    s.Rates env st amount currency
      = { out := .panic
          trace := [.dbGet (cacheKey env.now currency), .httpGet (fixerURL currency)]
          state := st1 } := by
  rcases hfail with ⟨e, h1⟩ | ⟨resp, e, h1, h2⟩ | ⟨resp, body, e, h1, h2, h3⟩
  · simp [Service.Rates, Service.fetchRates, hcur, hamt, hget, h1]
  · simp [Service.Rates, Service.fetchRates, hcur, hamt, hget, h1, h2]
  · simp [Service.Rates, Service.fetchRates, hcur, hamt, hget, h1, h2, h3]

theorem fetch_succeeds_or_fails (env : Env) (currency : Bytes) :
    (∃ resp body fr, env.httpGet (fixerURL currency) = .ok resp ∧ resp.Body = .ok body
        ∧ env.unmarshal body = .ok fr)
      ∨ ((∃ e, env.httpGet (fixerURL currency) = .error e)
        ∨ (∃ resp e, env.httpGet (fixerURL currency) = .ok resp ∧ resp.Body = .error e)
        ∨ (∃ resp body e, env.httpGet (fixerURL currency) = .ok resp ∧ resp.Body = .ok body
            ∧ env.unmarshal body = .error e)) := by
  cases hreq : env.httpGet (fixerURL currency) with
  | error e => exact Or.inr (Or.inl ⟨e, rfl⟩)
  | ok resp =>
    cases hbody : resp.Body with
    | error e => exact Or.inr (Or.inr (Or.inl ⟨resp, e, rfl, hbody⟩))
    | ok body =>
      cases hdec : env.unmarshal body with
      | error e => exact Or.inr (Or.inr (Or.inr ⟨resp, body, e, rfl, hbody, hdec⟩))
      | ok fr => exact Or.inl ⟨resp, body, fr, rfl, hbody, hdec⟩

/-- C5: with a non-empty currency and a parseable amount, when `Get` returns a table and a nil
error for the key of today, `Service.Rates` returns with a nil error the conversion of exactly
that table; its only collaborator call is that `Get`: no provider call and no `Set`. -/
theorem Rates_cache_hit {σ : Type} (s : Service σ) (env : Env) (st st1 : σ)
    (amount currency : Bytes) (am : Decimal) (fr : FixerRates)
    (hcur : currency ≠ []) (hamt : NewFromString amount = some am)
    (hget : s.db.Get st (cacheKey env.now currency) = ((some fr, none), st1)) :
    (s.Rates env st amount currency).out = .ret (some (fr.convToRates am currency)) none
      ∧ (s.Rates env st amount currency).trace = [.dbGet (cacheKey env.now currency)]
      ∧ (s.Rates env st amount currency).state = st1
      ∧ (∀ url, Event.httpGet url ∉ (s.Rates env st amount currency).trace)
      ∧ (∀ k v, Event.dbSet k v ∉ (s.Rates env st amount currency).trace) := by
  rw [Rates_run_of_hit s env st st1 amount currency am fr hcur hamt hget]
  simp

/-- Witness of C5: the test double holds a table for SEK; the provider is unreachable and is
not needed. -/
theorem Rates_cache_hit_witness :
    ((NewService (fakeLevelDB today)).Rates envDown () (lit "200") (lit "SEK")).out
        = .ret (some { Amount := { value := 200, exp := 0 }, Currency := lit "SEK",
                       Converted := [] }) none
      ∧ ((NewService (fakeLevelDB today)).Rates envDown () (lit "200") (lit "SEK")).trace
        = [.dbGet (lit "2024-05-01SEK")] :=
  have h := Rates_cache_hit (NewService (fakeLevelDB today)) envDown () () (lit "200") (lit "SEK")
    { value := 200, exp := 0 } { Base := lit "SEK", Date := [], Rates := [] }
    (by decide) (by decide) (by decide)
  ⟨h.1, h.2.1⟩

/-- C8: with a non-empty currency and a parseable amount, when `Get` returns an error and the
provider returns a body that decodes as a rate table, `Service.Rates` calls `Set` exactly once,
with the key of today and the body as received, and returns with a nil error the conversion of
the fetched table; the error result of `Set` plays no part. -/
theorem Rates_cache_miss_fetch {σ : Type} (s : Service σ) (env : Env) (st st1 : σ)
    (amount currency body : Bytes) (am : Decimal) (cached : Option FixerRates) (err : Error)
    (resp : Response) (fr : FixerRates)
    (hcur : currency ≠ []) (hamt : NewFromString amount = some am)
    (hget : s.db.Get st (cacheKey env.now currency) = ((cached, some err), st1))
    (hreq : env.httpGet (fixerURL currency) = .ok resp) (hbody : resp.Body = .ok body)
    (hdec : env.unmarshal body = .ok fr) :
    (s.Rates env st amount currency).out = .ret (some (fr.convToRates am currency)) none
      ∧ (s.Rates env st amount currency).trace
        = [.dbGet (cacheKey env.now currency), .httpGet (fixerURL currency),
           .dbSet (cacheKey env.now currency) body]
      ∧ (s.Rates env st amount currency).state
        = (s.db.Set st1 (cacheKey env.now currency) body).2 := by
  rw [Rates_run_of_fetch s env st st1 amount currency body am cached err resp fr hcur hamt hget
    hreq hbody hdec]
  simp

/-- Witness of C8: nothing cached, the provider answers with an empty object, and `Set`
fails; the call still returns the conversion of the fetched table. -/
theorem Rates_cache_miss_fetch_witness :
    (failingSetDB.Set () (cacheKey today (lit "USD")) (lit "\x7b\x7d")).1
        = some (.external "read-only file system")
      ∧ ((NewService failingSetDB).Rates (envStatus 200) () (lit "10") (lit "USD")).out
        = .ret (some { Amount := { value := 10, exp := 0 }, Currency := lit "USD",
                       Converted := [] }) none
      ∧ ((NewService failingSetDB).Rates (envStatus 200) () (lit "10") (lit "USD")).trace
        = [.dbGet (lit "2024-05-01USD"), .httpGet (lit "http://api.fixer.io/latest?base=USD"),
           .dbSet (lit "2024-05-01USD") (lit "\x7b\x7d")] :=
  have h := Rates_cache_miss_fetch (NewService failingSetDB) (envStatus 200) () ()
    (lit "10") (lit "USD") (lit "\x7b\x7d") { value := 10, exp := 0 } none .ErrNotFound
    { StatusCode := 200, Body := .ok (lit "\x7b\x7d") } emptyTable
    (by decide) (by decide) (by decide) rfl rfl rfl
  ⟨by decide, h.1, h.2.1⟩

/-- C1: the code at the failing inputs. Nothing is cached for USD and the provider fetch fails
(request error, body read error, body that is not a rate table): `Service.Rates` panics on the
nil table in each case, where an error return is claimed. -/
theorem Rates_double_failure_panics :
    ((NewService (fakeLevelDB today)).Rates envDown () (lit "200") (lit "USD")).out = .panic
      ∧ ((NewService (fakeLevelDB today)).Rates
          { envDown with
            httpGet := fun _ => .ok { StatusCode := 200, Body := .error (.external "EOF") } }
          () (lit "200") (lit "USD")).out = .panic
      ∧ ((NewService (fakeLevelDB today)).Rates
          { envDown with
            httpGet := fun _ => .ok { StatusCode := 200, Body := .ok (lit "garbage") } }
          () (lit "200") (lit "USD")).out = .panic := by
  refine ⟨?_, ?_, ?_⟩ <;> decide

/-! ## The echoed amount and currency -/

/-- C6: whenever `Service.Rates` returns with a nil error, it returns a result whose Currency is
the currency argument and whose Amount is the decimal parsed from the amount text, as parsed:
the text `1.23456` parses to 123456 with scale 5, which is 1.23456 and differs from its
rounding to 2 places; and on the inputs of the test (amount `200`, currency SEK, the test
double as database) the text form of the returned Amount is `200`. -/
theorem Rates_echoes_amount_and_currency {σ : Type} (s : Service σ) (env : Env) (st : σ)
    (amount currency : Bytes) (val : Option Rates)
    (hok : (s.Rates env st amount currency).out = .ret val none) :
    (∃ r, val = some r ∧ r.Currency = currency ∧ NewFromString amount = some r.Amount)
      ∧ NewFromString (lit "1.23456") = some { value := 123456, exp := -5 }
      ∧ ({ value := 123456, exp := -5 } : Decimal).toRat = 123456 / 100000
      ∧ ({ value := 123456, exp := -5 } : Decimal).Round 2 = { value := 123, exp := -2 }
      ∧ (∀ r, ((NewService (fakeLevelDB env.now)).Rates env () (lit "200") (lit "SEK")).out
            = .ret (some r) none
          → r.Amount.String = lit "200" ∧ r.Currency = lit "SEK")
      ∧ (∃ r, ((NewService (fakeLevelDB env.now)).Rates env () (lit "200") (lit "SEK")).out
            = .ret (some r) none) := by
  have h200 : NewFromString (lit "200") = some { value := 200, exp := 0 } := by decide
  have hsek : lit "SEK" ≠ [] := by decide
  have htest : ((NewService (fakeLevelDB env.now)).Rates env () (lit "200") (lit "SEK")).out
      = .ret (some { Amount := { value := 200, exp := 0 }, Currency := lit "SEK",
                     Converted := [] }) none := by
    simp [Service.Rates, NewService, fakeLevelDB, h200, hsek, FixerRates.convToRates]
  refine ⟨?_, by decide, ?_, by decide, ?_, ?_⟩
  · unfold Service.Rates at hok
    by_cases hcur : currency = []
    · simp [hcur] at hok
    · cases hamt : NewFromString amount with
      | none => simp [hcur, hamt] at hok
      | some am =>
        simp only [hcur, hamt, if_false] at hok
        split at hok
        · simp at hok
        · rename_i fr _
          simp only [Outcome.ret.injEq, and_true] at hok
          exact ⟨fr.convToRates am currency, hok.symm, rfl, rfl⟩
  · norm_num [Decimal.toRat]
  · intro r hr
    rw [htest] at hr
    simp only [Outcome.ret.injEq, Option.some.injEq, and_true] at hr
    subst hr
    exact ⟨by decide, rfl⟩
  · exact ⟨_, htest⟩

/-- Witness of C6: the cache-hit case of the test. -/
theorem Rates_echoes_amount_and_currency_witness :
    ∃ r : Rates, some { Amount := { value := 200, exp := 0 }, Currency := lit "SEK",
                        Converted := [] } = some r
      ∧ r.Currency = lit "SEK" ∧ NewFromString (lit "200") = some r.Amount :=
  (Rates_echoes_amount_and_currency (NewService (fakeLevelDB today)) envDown () (lit "200")
    (lit "SEK")
    (some { Amount := { value := 200, exp := 0 }, Currency := lit "SEK", Converted := [] })
    (by decide)).1

/-! ## The provider fetch and the HTTP status -/

/-- C9, the claim at a concrete response: status 500 with an empty JSON object as body.
`fetchRates` returns the decoded table with a nil error and stores the body. -/
theorem fetchRates_non2xx_counterexample :
    ¬ (200 ≤ 500 ∧ 500 < 300)
      ∧ (envStatus 500).httpGet (fixerURL (lit "USD"))
        = .ok { StatusCode := 500, Body := .ok (lit "\x7b\x7d") }
      ∧ ((NewService (NewDatabase unmarshalFixture)).fetchRates (envStatus 500)
          { entries := [], readFault := none, writeFault := none } (lit "USD")
          (cacheKey today (lit "USD"))).err = none
      ∧ ((NewService (NewDatabase unmarshalFixture)).fetchRates (envStatus 500)
          { entries := [], readFault := none, writeFault := none } (lit "USD")
          (cacheKey today (lit "USD"))).fr = some emptyTable
      ∧ ((NewService (NewDatabase unmarshalFixture)).fetchRates (envStatus 500)
          { entries := [], readFault := none, writeFault := none } (lit "USD")
          (cacheKey today (lit "USD"))).state.entries
        = [(lit "2024-05-01USD", lit "\x7b\x7d")] := by
  refine ⟨by decide, rfl, ?_, ?_, ?_⟩ <;> decide

/-- C9 as amended: `fetchRates` returns an error exactly when the request fails, the body
cannot be read, or the body does not decode as a rate table, and then it returns no table,
makes no `Set` call and leaves the database state as it was; the status code of the response
is not consulted: any response whose body is read and decodes yields the table with a nil
error and one `Set` of the body under the key. -/
theorem fetchRates_error_iff {σ : Type} (s : Service σ) (env : Env) (st : σ)
    (currency key : Bytes) :
    ((s.fetchRates env st currency key).err.isSome ↔
        ((∃ e, env.httpGet (fixerURL currency) = .error e)
          ∨ (∃ resp e, env.httpGet (fixerURL currency) = .ok resp ∧ resp.Body = .error e)
          ∨ (∃ resp body e, env.httpGet (fixerURL currency) = .ok resp ∧ resp.Body = .ok body
              ∧ env.unmarshal body = .error e)))
      ∧ ((s.fetchRates env st currency key).err.isSome →
          (s.fetchRates env st currency key).fr = none
            ∧ (s.fetchRates env st currency key).state = st
            ∧ ∀ k v, Event.dbSet k v ∉ (s.fetchRates env st currency key).trace)
      ∧ (∀ status body fr,
          env.httpGet (fixerURL currency) = .ok { StatusCode := status, Body := .ok body } →
          env.unmarshal body = .ok fr →
          (s.fetchRates env st currency key).fr = some fr
            ∧ (s.fetchRates env st currency key).err = none
            ∧ (s.fetchRates env st currency key).trace
              = [.httpGet (fixerURL currency), .dbSet key body]
            ∧ (s.fetchRates env st currency key).state = (s.db.Set st key body).2) := by
  unfold Service.fetchRates
  cases hreq : env.httpGet (fixerURL currency) with
  | error e => simp [hreq]
  | ok resp =>
    obtain ⟨status, rbody⟩ := resp
    cases rbody with
    | error e => simp [hreq]
    | ok body =>
      cases hdec : env.unmarshal body with
      | error e =>
        simp only [hreq, hdec]
        simp only [Option.isSome_some, true_iff, forall_true_left]
        refine ⟨Or.inr (Or.inr ⟨_, body, e, rfl, rfl, hdec⟩), by simp, ?_⟩
        intro status1 body1 fr1 h1 h2
        simp only [Except.ok.injEq, Response.mk.injEq] at h1
        obtain ⟨-, rfl⟩ := h1
        rw [hdec] at h2
        cases h2
      | ok fr =>
        simp only [hreq, hdec]
        refine ⟨?_, by simp, ?_⟩
        · simp only [Option.isSome_none, Bool.false_eq_true, false_iff]
          rintro (⟨e, h⟩ | ⟨resp, e, h, hb⟩ | ⟨resp, b, e, h, hb, hd⟩)
          · cases h
          · cases h; cases hb
          · cases h; cases hb; rw [hdec] at hd; cases hd
        · intro status1 body1 fr1 h1 h2
          simp only [Except.ok.injEq, Response.mk.injEq] at h1
          obtain ⟨-, rfl⟩ := h1
          rw [hdec] at h2
          cases h2
          simp

/-! ## Existing entries of the LevelDB-backed database -/

theorem GoMap.get_set_self {V : Type} (m : List (Bytes × V)) (k : Bytes) (v : V) :
    GoMap.get (GoMap.set m k v) k = some v := by
  induction m with
  | nil => simp [GoMap.set, GoMap.get]
  | cons kv rest ih =>
    obtain ⟨k1, v1⟩ := kv
    by_cases h : k1 = k
    · simp [GoMap.set, GoMap.get, h]
    · simp [GoMap.set, GoMap.get, h, ih]

/-- C10, the claim at a concrete store: the key of today for USD holds bytes that do not
decode, `Get` fails with an error other than not-found, the provider answers, and the entry
is overwritten with the fetched body. -/
theorem Rates_overwrites_corrupt_entry_counterexample :
    GoMap.get corruptDB.entries (cacheKey today (lit "USD")) = some (lit "garbage")
      ∧ ((NewDatabase unmarshalFixture).Get corruptDB (cacheKey today (lit "USD"))).1
        = (none, some (.cantUnmarshal (cacheKey today (lit "USD"))
            (.external "invalid character")))
      ∧ GoMap.get ((NewService (NewDatabase unmarshalFixture)).Rates (envStatus 200) corruptDB
          (lit "200") (lit "USD")).state.entries (cacheKey today (lit "USD"))
        = some (lit "\x7b\x7d")
      ∧ lit "\x7b\x7d" ≠ lit "garbage" := by
  refine ⟨?_, ?_, ?_, ?_⟩ <;> decide

/-- C10 as amended: when the key of today for the requested currency holds an entry in the
LevelDB-backed database, `Service.Rates` never deletes it, and leaves the whole store unchanged,
with no `Set` call, when the read succeeds and the bytes decode as a rate table; the entry is
replaced only by a `Set` of a fetched body that decodes, after a `Get` that failed, and in
that case, when the write succeeds, it is replaced by that body. -/
theorem Rates_keeps_decodable_entry (env : Env) (d : DB) (amount currency buf : Bytes)
    (hentry : GoMap.get d.entries (cacheKey env.now currency) = some buf) :
    (∀ fr, d.readFault = none → env.unmarshal buf = .ok fr →
        ((NewService (NewDatabase env.unmarshal)).Rates env d amount currency).state = d
          ∧ ∀ k v, Event.dbSet k v ∉
              ((NewService (NewDatabase env.unmarshal)).Rates env d amount currency).trace)
      ∧ (GoMap.get ((NewService (NewDatabase env.unmarshal)).Rates env d amount currency
            ).state.entries (cacheKey env.now currency) = some buf
          ∨ ∃ body fr, env.unmarshal body = .ok fr
              ∧ ((NewDatabase env.unmarshal).Get d (cacheKey env.now currency)).1.2.isSome
              ∧ Event.dbSet (cacheKey env.now currency) body ∈
                  ((NewService (NewDatabase env.unmarshal)).Rates env d amount currency).trace
              ∧ GoMap.get ((NewService (NewDatabase env.unmarshal)).Rates env d amount currency
                  ).state.entries (cacheKey env.now currency) = some body)
      ∧ (∀ am err resp body fr, currency ≠ [] → NewFromString amount = some am →
          ((NewDatabase env.unmarshal).Get d (cacheKey env.now currency)).1.2 = some err →
          env.httpGet (fixerURL currency) = .ok resp → resp.Body = .ok body →
          env.unmarshal body = .ok fr → d.writeFault = none →
          GoMap.get ((NewService (NewDatabase env.unmarshal)).Rates env d amount currency
            ).state.entries (cacheKey env.now currency) = some body) := by
  refine ⟨?_, ?_, ?_⟩
  · intro fr hread hdec
    have hget : (NewDatabase env.unmarshal).Get d (cacheKey env.now currency)
        = ((some fr, none), d) := by
      simp [NewDatabase, levelDB.Get, DB.Get, hread, hentry, hdec]
    by_cases hcur : currency = []
    · simp [Service.Rates, hcur]
    · cases hamt : NewFromString amount with
      | none => simp [Service.Rates, hcur, hamt]
      | some am =>
        rw [Rates_run_of_hit (NewService (NewDatabase env.unmarshal)) env d d amount
          currency am fr hcur hamt hget]
        simp
  · by_cases hcur : currency = []
    · left; simp [Service.Rates, hcur, ← hentry]
    · cases hamt : NewFromString amount with
      | none => left; simp [Service.Rates, hcur, hamt, hentry]
      | some am =>
        cases hg : ((NewDatabase env.unmarshal).Get d (cacheKey env.now currency)).1.2 with
        | none =>
          left
          have hst : ((NewDatabase env.unmarshal).Get d (cacheKey env.now currency)).2 = d := rfl
          simp [Service.Rates, hcur, hamt, NewService, hg, hst]
          split <;> exact hentry
        | some err =>
          have hget : (NewService (NewDatabase env.unmarshal)).db.Get d (cacheKey env.now currency)
              = ((((NewDatabase env.unmarshal).Get d (cacheKey env.now currency)).1.1, some err),
                  d) := by
            rw [← hg]; rfl
          rcases fetch_succeeds_or_fails env currency with ⟨resp, body, fr, h1, h2, h3⟩ | hfail
          · rw [Rates_run_of_fetch _ env d d amount currency body am _ err resp fr hcur hamt hget
              h1 h2 h3]
            cases hw : d.writeFault with
            | some e =>
              left
              simp [NewService, NewDatabase, levelDB.Set, DB.Put, hw, hentry]
            | none =>
              right
              refine ⟨body, fr, h3, by simp, by simp, ?_⟩
              simp [NewService, NewDatabase, levelDB.Set, DB.Put, hw, GoMap.get_set_self]
          · left
            rw [Rates_run_of_failures _ env d d amount currency am _ err hcur hamt hget hfail]
            exact hentry
  · intro am err resp body fr hcur hamt hg h1 h2 h3 hw
    have hget : (NewService (NewDatabase env.unmarshal)).db.Get d (cacheKey env.now currency)
        = ((((NewDatabase env.unmarshal).Get d (cacheKey env.now currency)).1.1, some err),
            d) := by
      rw [← hg]; rfl
    rw [Rates_run_of_fetch _ env d d amount currency body am _ err resp fr hcur hamt hget
      h1 h2 h3]
    simp [NewService, NewDatabase, levelDB.Set, DB.Put, hw, GoMap.get_set_self]

/-- Witness of C10: the key of today for USD holds an empty JSON object, which decodes; the
call leaves the store as it was. -/
theorem Rates_keeps_decodable_entry_witness :
    GoMap.get cachedDB.entries (cacheKey envDown.now (lit "USD")) = some (lit "\x7b\x7d")
      ∧ ((NewService (NewDatabase envDown.unmarshal)).Rates envDown cachedDB (lit "200")
          (lit "USD")).state = cachedDB :=
  ⟨by decide,
    ((Rates_keeps_decodable_entry envDown cachedDB (lit "200") (lit "USD") (lit "\x7b\x7d")
      (by decide)).1 emptyTable rfl rfl).1⟩

/-! ## Conversion -/

theorem GoMap.set_of_not_mem {V : Type} (m : List (Bytes × V)) (k : Bytes) (v : V)
    (h : k ∉ m.map Prod.fst) : GoMap.set m k v = m ++ [(k, v)] := by
  induction m with
  | nil => rfl
  | cons kv rest ih =>
    obtain ⟨k1, v1⟩ := kv
    simp only [List.map_cons, List.mem_cons, not_or] at h
    have hne : ¬ k1 = k := fun e => h.1 e.symm
    simp [GoMap.set, hne, ih h.2]

theorem foldl_set_eq_map {V W : Type} (f : V → W) (rates : List (Bytes × V)) :
    ∀ acc : List (Bytes × W), (acc.map Prod.fst ++ rates.map Prod.fst).Nodup →
      rates.foldl (fun conv kv => GoMap.set conv kv.1 (f kv.2)) acc
        = acc ++ rates.map (fun kv => (kv.1, f kv.2)) := by
  induction rates with
  | nil => intro acc _; simp
  | cons kv rest ih =>
    intro acc hnd
    obtain ⟨k, v⟩ := kv
    have hk : k ∉ acc.map Prod.fst := by
      intro hmem
      have := (List.nodup_append.mp hnd).2.2
      exact this hmem (by simp)
    simp only [List.foldl_cons, List.map_cons]
    rw [GoMap.set_of_not_mem acc k (f v) hk, ih]
    · simp
    · simpa [List.map_append] using hnd

theorem GoMap.get_map {V W : Type} (f : V → W) (m : List (Bytes × V)) (k : Bytes) :
    GoMap.get (m.map (fun kv => (kv.1, f kv.2))) k = (GoMap.get m k).map f := by
  induction m with
  | nil => rfl
  | cons kv rest ih =>
    obtain ⟨k1, v1⟩ := kv
    by_cases h : k1 = k
    · simp [GoMap.get, h]
    · simp [GoMap.get, h, ih]

theorem convToRates_Converted (fr : FixerRates) (amount : Decimal) (currency : Bytes)
    (hkeys : (fr.Rates.map Prod.fst).Nodup) :
    (fr.convToRates amount currency).Converted
      = fr.Rates.map (fun kv => (kv.1, (kv.2.Mul amount).Round defaultRoundPlaces)) := by
  unfold FixerRates.convToRates
  simp only
  rw [foldl_set_eq_map (fun v => (v.Mul amount).Round defaultRoundPlaces) fr.Rates [] (by simpa using hkeys)]
  simp

theorem Mul_toRat (a b : Decimal) : (a.Mul b).toRat = a.toRat * b.toRat := by
  unfold Decimal.Mul Decimal.toRat
  simp only
  rw [zpow_add₀ (by norm_num)]
  push_cast
  ring

theorem roundHalfUp_nearest (x : ℚ) (places : Nat) :
    |roundHalfUp x places - x| ≤ 1 / (2 * (10 : ℚ) ^ places)
      ∧ (|roundHalfUp x places - x| = 1 / (2 * (10 : ℚ) ^ places)
          → |x| < |roundHalfUp x places|) := by
  have hp : (0 : ℚ) < (10 : ℚ) ^ places := by positivity
  set y : ℚ := |x| * (10 : ℚ) ^ places with hy
  set n : ℤ := ⌊y + 1 / 2⌋ with hn
  have hy0 : 0 ≤ y := by positivity
  have h1 : (n : ℚ) ≤ y + 1 / 2 := Int.floor_le _
  have h2 : y + 1 / 2 < (n : ℚ) + 1 := Int.lt_floor_add_one _
  have hn0 : (0 : ℚ) ≤ (n : ℚ) := by
    have : (0 : ℤ) ≤ n := Int.floor_nonneg.mpr (by linarith)
    exact_mod_cast this
  have hx : |x| = y / (10 : ℚ) ^ places := by rw [hy]; field_simp
  have hr : roundHalfUp x places = (SignType.sign x : ℚ) * (n : ℚ) / (10 : ℚ) ^ places := rfl
  rcases lt_trichotomy x 0 with hneg | hzero | hpos
  · have hs : (SignType.sign x : ℚ) = -1 := by rw [sign_neg hneg]; simp
    have hxv : x = -(y / (10 : ℚ) ^ places) := by rw [← hx, abs_of_neg hneg]; ring
    have hd : roundHalfUp x places - x = (y - (n : ℚ)) / (10 : ℚ) ^ places := by
      rw [hr, hs, hxv]; field_simp; ring
    have habs : |roundHalfUp x places| = (n : ℚ) / (10 : ℚ) ^ places := by
      rw [hr, hs, abs_div, abs_of_pos hp]
      congr 1
      rw [neg_one_mul, abs_neg, abs_of_nonneg hn0]
    rw [hd, habs, hx, abs_div, abs_of_pos hp]
    constructor
    · rw [div_le_div_iff₀ hp (by positivity)]
      have : |y - (n : ℚ)| ≤ 1 / 2 := abs_le.mpr ⟨by linarith, by linarith⟩
      nlinarith
    · intro htie
      have hhalf : |y - (n : ℚ)| = 1 / 2 := by
        field_simp at htie
        have hz : (|y - (n : ℚ)| * 2 - 1) * (10 : ℚ) ^ places = 0 := by linarith
        rcases mul_eq_zero.mp hz with h | h
        · linarith
        · exact absurd h (ne_of_gt hp)
      have : (n : ℚ) - y = 1 / 2 := by
        rcases abs_eq (by norm_num : (0 : ℚ) ≤ 1 / 2) |>.mp hhalf with h | h
        · linarith
        · linarith
      exact div_lt_div_of_pos_right (by linarith) hp
  · subst hzero
    have hy00 : y = 0 := by rw [hy]; simp
    have hn00 : n = 0 := by rw [hn, hy00]; norm_num
    rw [hr, hn00]
    simp
  · have hs : (SignType.sign x : ℚ) = 1 := by rw [sign_pos hpos]; simp
    have hxv : x = y / (10 : ℚ) ^ places := by rw [← hx, abs_of_pos hpos]
    have hd : roundHalfUp x places - x = ((n : ℚ) - y) / (10 : ℚ) ^ places := by
      rw [hr, hs, hxv]; field_simp
    have habs : |roundHalfUp x places| = (n : ℚ) / (10 : ℚ) ^ places := by
      rw [hr, hs, abs_div, abs_of_pos hp, one_mul, abs_of_nonneg hn0]
    rw [hd, habs, hx, abs_div, abs_of_pos hp]
    constructor
    · rw [div_le_div_iff₀ hp (by positivity)]
      have : |(n : ℚ) - y| ≤ 1 / 2 := abs_le.mpr ⟨by linarith, by linarith⟩
      nlinarith
    · intro htie
      have hhalf : |(n : ℚ) - y| = 1 / 2 := by
        field_simp at htie
        have hz : (|(n : ℚ) - y| * 2 - 1) * (10 : ℚ) ^ places = 0 := by linarith
        rcases mul_eq_zero.mp hz with h | h
        · linarith
        · exact absurd h (ne_of_gt hp)
      have : (n : ℚ) - y = 1 / 2 := by
        rcases abs_eq (by norm_num : (0 : ℚ) ≤ 1 / 2) |>.mp hhalf with h | h
        · linarith
        · linarith
      exact div_lt_div_of_pos_right (by linarith) hp

theorem Round_two (d : Decimal) :
    (d.Round defaultRoundPlaces).exp = -2
      ∧ (d.Round defaultRoundPlaces).toRat = roundHalfUp d.toRat 2 := by
  have h := Round_toRat d 2
  have hcast : ((2 : Nat) : Int) = defaultRoundPlaces := rfl
  rw [hcast] at h
  exact ⟨by rw [Round_exp]; rfl, h⟩

/-- C4: for a rate table (a map, so with distinct keys) and a decimal amount, the converted map
of `convToRates` has exactly the keys of the rates, and for every key its value is the product
of the rate and the amount rounded to exactly 2 decimal places half-up: the value has scale 2,
it is the rational rounding `roundHalfUp` of the exact product, hence within half a hundredth
of it, and at a tie it is the neighbour of larger magnitude. With the single rate 1 for SEK
the converted SEK value is the amount rounded to 2 places. -/
theorem convToRates_rounds_half_up (fr : FixerRates) (amount : Decimal) (currency : Bytes)
    (hkeys : (fr.Rates.map Prod.fst).Nodup) :
    (fr.convToRates amount currency).Converted.map Prod.fst = fr.Rates.map Prod.fst
      ∧ (∀ k, GoMap.get fr.Rates k = none →
          GoMap.get (fr.convToRates amount currency).Converted k = none)
      ∧ (∀ k v, GoMap.get fr.Rates k = some v →
          ∃ c, GoMap.get (fr.convToRates amount currency).Converted k = some c
            ∧ c = (v.Mul amount).Round 2
            ∧ c.exp = -2
            ∧ c.toRat = roundHalfUp (v.toRat * amount.toRat) 2
            ∧ |c.toRat - v.toRat * amount.toRat| ≤ 1 / 200
            ∧ (|c.toRat - v.toRat * amount.toRat| = 1 / 200
                → |v.toRat * amount.toRat| < |c.toRat|))
      ∧ (∀ one : Decimal, one.toRat = 1 → fr.Rates = [(lit "SEK", one)] →
          ∃ c, GoMap.get (fr.convToRates amount currency).Converted (lit "SEK") = some c
            ∧ c.exp = -2 ∧ c.toRat = roundHalfUp amount.toRat 2) := by
  have hconv := convToRates_Converted fr amount currency hkeys
  have hget : ∀ k, GoMap.get (fr.convToRates amount currency).Converted k
      = (GoMap.get fr.Rates k).map (fun v => (v.Mul amount).Round defaultRoundPlaces) := by
    intro k
    rw [hconv]
    exact GoMap.get_map (fun v => (v.Mul amount).Round defaultRoundPlaces) fr.Rates k
  have hval : ∀ k v, GoMap.get fr.Rates k = some v →
      ∃ c, GoMap.get (fr.convToRates amount currency).Converted k = some c
        ∧ c = (v.Mul amount).Round 2
        ∧ c.exp = -2
        ∧ c.toRat = roundHalfUp (v.toRat * amount.toRat) 2 := by
    intro k v hkv
    refine ⟨(v.Mul amount).Round defaultRoundPlaces, ?_, rfl, (Round_two _).1, ?_⟩
    · rw [hget, hkv]; rfl
    · rw [(Round_two _).2, Mul_toRat]
  refine ⟨?_, ?_, ?_, ?_⟩
  · rw [hconv, List.map_map]
    rfl
  · intro k hk
    rw [hget, hk]; rfl
  · intro k v hkv
    obtain ⟨c, h1, h2, h3, h4⟩ := hval k v hkv
    have hn := roundHalfUp_nearest (v.toRat * amount.toRat) 2
    rw [← h4] at hn
    have h200 : (1 : ℚ) / (2 * 10 ^ 2) = 1 / 200 := by norm_num
    rw [h200] at hn
    exact ⟨c, h1, h2, h3, h4, hn.1, hn.2⟩
  · intro one hone hrates
    have hk : GoMap.get fr.Rates (lit "SEK") = some one := by
      rw [hrates]; simp [GoMap.get]
    obtain ⟨c, h1, -, h3, h4⟩ := hval (lit "SEK") one hk
    rw [hone, one_mul] at h4
    exact ⟨c, h1, h3, h4⟩

/-- Witness of C4: the rate 1 for SEK and the amount 1.005, a tie, which converts to 1.01. -/
theorem convToRates_rounds_half_up_witness :
    GoMap.get (({ Base := lit "SEK", Date := [], Rates := [(lit "SEK", { value := 1, exp := 0 })] }
        : FixerRates).convToRates { value := 1005, exp := -3 } (lit "SEK")).Converted (lit "SEK")
        = some { value := 101, exp := -2 }
      ∧ (({ Base := lit "SEK", Date := [], Rates := [(lit "SEK", { value := 1, exp := 0 })] }
        : FixerRates).convToRates { value := 1005, exp := -3 } (lit "SEK")).Converted.map Prod.fst
        = [lit "SEK"] :=
  ⟨by decide,
    (convToRates_rounds_half_up
      { Base := lit "SEK", Date := [], Rates := [(lit "SEK", { value := 1, exp := 0 })] }
      { value := 1005, exp := -3 } (lit "SEK") (by decide)).1⟩

/-! ## The cache key -/

theorem digitByte_toNat (r : Nat) (hr : r < 10) : (UInt8.ofNat (48 + r)).toNat - 48 = r := by
  interval_cases r <;> rfl

theorem digitsVal_append_one (xs : Bytes) (b : UInt8) :
    digitsVal (xs ++ [b]) = 10 * digitsVal xs + (b.toNat - 48) := by
  simp [digitsVal, List.foldl_append]

theorem natDigitsAux_spec (fuel : Nat) : ∀ (n : Nat) (acc : Bytes), n < fuel →
    ∃ ds : Bytes, natDigitsAux fuel n acc = ds ++ acc ∧ digitsVal ds = n
      ∧ ∀ k, 1 ≤ k → n < 10 ^ k → ds.length ≤ k := by
  induction fuel with
  | zero => intro n acc h; omega
  | succ fuel ih =>
    intro n acc hn
    by_cases hlt : n < 10
    · refine ⟨[UInt8.ofNat (48 + n)], by simp [natDigitsAux, hlt], ?_, ?_⟩
      · have := digitsVal_append_one [] (UInt8.ofNat (48 + n))
        simp only [List.nil_append] at this
        rw [this, digitByte_toNat n hlt]
        simp [digitsVal]
      · intro k hk _
        simpa using hk
    · obtain ⟨ds, hds, hval, hlen⟩ := ih (n / 10) (UInt8.ofNat (48 + n % 10) :: acc) (by omega)
      refine ⟨ds ++ [UInt8.ofNat (48 + n % 10)], ?_, ?_, ?_⟩
      · simp [natDigitsAux, hlt, hds]
      · rw [digitsVal_append_one, hval, digitByte_toNat _ (Nat.mod_lt _ (by norm_num))]
        omega
      · intro k hk hnk
        have hk2 : 2 ≤ k := by
          by_contra hcon
          have : k = 1 := by omega
          subst this
          omega
        have := hlen (k - 1) (by omega) (by
          have hpow : 10 ^ k = 10 ^ (k - 1) * 10 := by
            rw [← pow_succ]; congr 1; omega
          rw [hpow] at hnk
          exact Nat.div_lt_of_lt_mul (by rw [mul_comm]; exact hnk))
        simp only [List.length_append, List.length_singleton]
        omega

theorem natDigits_val (n : Nat) : digitsVal (natDigits n) = n := by
  obtain ⟨ds, hds, hval, -⟩ := natDigitsAux_spec (n + 1) n [] (by omega)
  unfold natDigits
  rw [hds, List.append_nil, hval]

theorem natDigits_length (n k : Nat) (hk : 1 ≤ k) (hn : n < 10 ^ k) :
    (natDigits n).length ≤ k := by
  obtain ⟨ds, hds, -, hlen⟩ := natDigitsAux_spec (n + 1) n [] (by omega)
  unfold natDigits
  rw [hds, List.append_nil]
  exact hlen k hk hn

theorem digitsVal_zeros (m : Nat) (ds : Bytes) :
    digitsVal (List.replicate m 48 ++ ds) = digitsVal ds := by
  have h : ∀ m : Nat, List.foldl (fun acc (b : UInt8) => 10 * acc + (b.toNat - 48)) 0
      (List.replicate m (48 : UInt8)) = 0 := by
    intro m
    induction m with
    | zero => rfl
    | succ m ih =>
      rw [List.replicate_succ, List.foldl_cons]
      exact ih
  simp [digitsVal, List.foldl_append, h]

theorem appendInt_val (x width : Nat) : digitsVal (appendInt x width) = x := by
  unfold appendInt
  rw [digitsVal_zeros, natDigits_val]

theorem appendInt_length (x width : Nat) (hw : 1 ≤ width) (hx : x < 10 ^ width) :
    (appendInt x width).length = width := by
  unfold appendInt
  have := natDigits_length x width hw hx
  simp only [List.length_append, List.length_replicate]
  omega

theorem format_length (d : Date) (hd : d.valid) : d.format.length = 10 := by
  obtain ⟨hy, -, hm, -, hdd⟩ := hd
  unfold Date.format
  simp only [List.length_append, List.length_singleton]
  rw [appendInt_length d.year 4 (by norm_num) (by omega),
    appendInt_length d.month 2 (by norm_num) (by omega),
    appendInt_length d.day 2 (by norm_num) (by omega)]

theorem format_injective (d1 d2 : Date) (h1 : d1.valid) (h2 : d2.valid)
    (h : d1.format = d2.format) : d1 = d2 := by
  obtain ⟨hy1, -, hm1, -, hd1⟩ := h1
  obtain ⟨hy2, -, hm2, -, hd2⟩ := h2
  unfold Date.format at h
  have ly1 := appendInt_length d1.year 4 (by norm_num) (by omega)
  have ly2 := appendInt_length d2.year 4 (by norm_num) (by omega)
  have lm1 := appendInt_length d1.month 2 (by norm_num) (by omega)
  have lm2 := appendInt_length d2.month 2 (by norm_num) (by omega)
  simp only [List.append_assoc] at h
  obtain ⟨hyear, h⟩ := List.append_inj h (by rw [ly1, ly2])
  obtain ⟨-, h⟩ := List.append_inj h rfl
  obtain ⟨hmonth, h⟩ := List.append_inj h (by rw [lm1, lm2])
  obtain ⟨-, hday⟩ := List.append_inj h rfl
  have ey := congrArg digitsVal hyear
  have em := congrArg digitsVal hmonth
  have ed := congrArg digitsVal hday
  rw [appendInt_val, appendInt_val] at ey em ed
  cases d1; cases d2
  simp only at ey em ed
  subst ey em ed
  rfl

/-- C7: with the current date as a parameter, the cache key is the date in the layout
YYYY-MM-DD followed by the currency bytes as given, and it is injective on calendar dates with
years 0000 to 9999 and arbitrary currencies: two keys are equal exactly when the dates are
equal and the currencies are equal; so currencies differing only in case give different
keys. -/
theorem cacheKey_injective (d1 d2 : Date) (c1 c2 : Bytes) (h1 : d1.valid) (h2 : d2.valid) :
    (cacheKey d1 c1 = cacheKey d2 c2 ↔ d1 = d2 ∧ c1 = c2)
      ∧ cacheKey d1 c1 = d1.format ++ c1
      ∧ d1.format.length = 10
      ∧ cacheKey { year := 2024, month := 5, day := 1 } (lit "USD") = lit "2024-05-01USD"
      ∧ cacheKey d1 (lit "usd") ≠ cacheKey d1 (lit "USD") := by
  have hinj : cacheKey d1 c1 = cacheKey d2 c2 ↔ d1 = d2 ∧ c1 = c2 := by
    constructor
    · intro h
      unfold cacheKey at h
      obtain ⟨hf, hc⟩ := List.append_inj h (by rw [format_length d1 h1, format_length d2 h2])
      exact ⟨format_injective d1 d2 h1 h2 hf, hc⟩
    · rintro ⟨rfl, rfl⟩
      rfl
  refine ⟨hinj, rfl, format_length d1 h1, by decide, ?_⟩
  intro h
  unfold cacheKey at h
  have := List.append_cancel_left h
  revert this
  decide

/-- Witness of C7: two consecutive days and two currencies. -/
theorem cacheKey_injective_witness :
    (cacheKey { year := 2024, month := 5, day := 1 } (lit "USD")
        = cacheKey { year := 2024, month := 5, day := 2 } (lit "USD")
      ↔ ({ year := 2024, month := 5, day := 1 } : Date) = { year := 2024, month := 5, day := 2 }
        ∧ lit "USD" = lit "USD")
      ∧ cacheKey { year := 2024, month := 5, day := 1 } (lit "USD")
        ≠ cacheKey { year := 2024, month := 5, day := 2 } (lit "USD")
      ∧ cacheKey { year := 2024, month := 5, day := 1 } (lit "USD")
        ≠ cacheKey { year := 2024, month := 5, day := 1 } (lit "EUR") :=
  ⟨(cacheKey_injective { year := 2024, month := 5, day := 1 }
      { year := 2024, month := 5, day := 2 } (lit "USD") (lit "USD")
      (by decide) (by decide)).1,
    by decide, by decide⟩

end Xrate
